import Mathlib

/-!
Verification of the `html_writer` document builder
(`src/html_writer/html_writer.py`), shallowly embedded in Lean 4.

The embedding follows the source:
* `Indent` embeds the `Indent` enum with its `from_int` / `to_int`
  conversions and the clamping addition `Indent.__add__`.
* `HtmlLine` embeds the `_HtmlLine` dataclass.
* `Html` embeds the `Html` class: the `deque` of committed lines becomes a
  `List HtmlLine`, the `_buffer` string is the pending text.  Python's
  in-place mutation is modelled by state passing: every method takes the
  receiver and returns the updated receiver.
* `Html.newline`, `Html.to_raw_html`, `Html.iaddStr` / `Html.iaddHtml`
  (`__iadd__` on the two argument types), `Html.deepcopy`, `Html.hadd`
  (`__add__`) and the `tag` context manager (`tagEnter` / `tagExit` /
  `tagRun`) are direct translations.
* The `tag` context manager's `try/finally` is modelled by a body of type
  `Html → Html × Bool`: the returned `Bool` is true when the body raised,
  and the state it returns is whatever mutations the body performed before
  completing or raising; `tagRun` runs the exit sequence on that state in
  both cases, exactly as the `finally` block does.
-/

namespace HtmlWriter

/-- The `Indent` enum: dedent / nothing / indent. -/
inductive Indent where
  | dedent
  | nothing
  | indent
deriving DecidableEq, Repr

/-- `Indent.to_int`: indent ↦ 1, dedent ↦ -1, nothing ↦ 0. -/
def Indent.to_int : Indent → Int
  | .indent => 1
  | .dedent => -1
  | .nothing => 0

/-- `Indent.from_int`: `if val > 0: indent elif val < 0: dedent else: nothing`. -/
def Indent.from_int (val : Int) : Indent :=
  if 0 < val then .indent else if val < 0 then .dedent else .nothing

/-- `Indent.__add__`: add the integer images, convert back. -/
def Indent.add (a b : Indent) : Indent :=
  Indent.from_int (a.to_int + b.to_int)

/-- Formalisation of the SPEC's words for delta conversion (not of the code):
conversion succeeds only on {-1, 0, 1} and signals an error (here: `none`)
on every other integer.  Used to compare the spec's contract with the
source's `Indent.from_int`. -/
def fromIntSpec (val : Int) : Option Indent :=
  if val = 1 then some .indent
  else if val = -1 then some .dedent
  else if val = 0 then some .nothing
  else none

/-- The `_HtmlLine` dataclass: a committed line's text and its delta. -/
structure HtmlLine where
  line : String
  indent : Indent
deriving DecidableEq, Repr

/-- The `Html` class's state: committed lines (`_inner_html`) and the
pending text (`_buffer`). -/
structure Html where
  inner_html : List HtmlLine
  buffer : String
deriving DecidableEq, Repr

/-- `self._inner_html[-1].indent += indent`: add a delta to the last
committed line's delta, leaving every other line unchanged. -/
def updateLastIndent (ls : List HtmlLine) (d : Indent) : List HtmlLine :=
  match ls with
  | [] => []
  | [l] => [⟨l.line, Indent.add l.indent d⟩]
  | x :: y :: rest => x :: updateLastIndent (y :: rest) d

/-- `Html.newline(force, indent)`: if `force` is false, the buffer is empty
and there is at least one committed line, fold the delta into the last
committed line; otherwise commit the buffer as a new line with the given
delta and reset the buffer. -/
def Html.newline (h : Html) (force : Bool) (ind : Indent) : Html :=
  if force = false ∧ h.buffer.length = 0 ∧ 0 < h.inner_html.length then
    { h with inner_html := updateLastIndent h.inner_html ind }
  else
    { inner_html := h.inner_html ++ [⟨h.buffer, ind⟩], buffer := "" }

/-- `Html.__iadd__` with a string argument: extend the buffer. -/
def Html.iaddStr (h : Html) (s : String) : Html :=
  { h with buffer := h.buffer ++ s }

/-- `Html.__iadd__` with an `Html` argument: commit the buffer, then for
each committed line of `other` set the buffer to its text and commit it
with its delta, finally take over `other`'s buffer. -/
def Html.iaddHtml (h other : Html) : Html :=
  let h1 := h.newline false .nothing
  let h2 := other.inner_html.foldl
    (fun acc l => Html.newline { acc with buffer := l.line } false l.indent) h1
  { h2 with buffer := other.buffer }

/-- `Html.deepcopy`: `copy.deepcopy` of the owned data; on Lean values a
full structural copy is the value itself. -/
def Html.deepcopy (h : Html) : Html := h

/-- `Html.__add__`: deep-copy the receiver, apply the in-place append to
the copy, return the copy. -/
def Html.hadd (a b : Html) : Html :=
  Html.iaddHtml a.deepcopy b

/-- The error raised by `to_raw_html` (`WriteOutError`). -/
inductive WriteOutError where
  | invalidIndentation
deriving DecidableEq, Repr

/-- `n` literal space characters. -/
def spaces (n : Nat) : String :=
  String.mk (List.replicate n ' ')

/-- The committed-lines loop of `Html.to_raw_html`: emit each line prefixed
by `indent_size * indent` spaces, add its delta to the running level, raise
as soon as the level goes negative. -/
def toRawHtmlGo (indent_size : Nat) : List HtmlLine → Int → String → Except WriteOutError String
  | [], _, acc => Except.ok acc
  | l :: ls, ind, acc =>
    let acc' := acc ++ spaces (indent_size * ind.toNat) ++ l.line ++ "\n"
    let ind' := ind + l.indent.to_int
    if ind' < 0 then Except.error WriteOutError.invalidIndentation
    else toRawHtmlGo indent_size ls ind' acc'

/-- `Html.to_raw_html(indent_size)`: render the committed lines, then one
more line `' ' * indent_size + buffer + '\n'` for the pending text. -/
def Html.to_raw_html (h : Html) (indent_size : Nat) : Except WriteOutError String :=
  match toRawHtmlGo indent_size h.inner_html 0 "" with
  | Except.ok s => Except.ok (s ++ spaces indent_size ++ h.buffer ++ "\n")
  | Except.error e => Except.error e

/-- `Html._get_open_and_close_tags(name)` with no id / classes / styles /
attributes: `("<name>", "</name>")`. -/
def get_open_and_close_tags (name : String) : String × String :=
  ("<" ++ name ++ ">", "</" ++ name ++ ">")

/-- Entry of the `Html.tag` context manager: `newline()`, write the open
tag, `newline(indent=Indent.indent)`. -/
def Html.tagEnter (h : Html) (open_tag : String) : Html :=
  Html.newline (Html.iaddStr (Html.newline h false .nothing) open_tag) false .indent

/-- Exit of the `Html.tag` context manager (the `finally` block):
`newline(indent=Indent.dedent)`, write the close tag, `newline()`. -/
def Html.tagExit (h : Html) (close_tag : String) : Html :=
  Html.newline (Html.iaddStr (Html.newline h false .dedent) close_tag) false .nothing

/-- The whole `with self.tag(...)` block: run the entry sequence, the body
(which reports via its `Bool` whether it raised), then the exit sequence
unconditionally, re-raising afterwards. -/
def Html.tagRun (h : Html) (open_tag close_tag : String) (body : Html → Html × Bool) :
    Html × Bool :=
  let h1 := h.tagEnter open_tag
  let r := body h1
  (r.1.tagExit close_tag, r.2)

/-- A tag scope with an empty body: open and immediately close. -/
def Html.tagNoBody (h : Html) (name : String) : Html :=
  (Html.tagRun h (get_open_and_close_tags name).1 (get_open_and_close_tags name).2
    (fun s => (s, false))).1

/-- The `__main__` example's inner document: a fresh `Html`, a `div` scope
containing a `p` scope containing the text `"Hello World!"`. -/
def helloDoc : Html :=
  (Html.tagRun ⟨[], ""⟩ (get_open_and_close_tags "div").1 (get_open_and_close_tags "div").2
    (fun h =>
      Html.tagRun h (get_open_and_close_tags "p").1 (get_open_and_close_tags "p").2
        (fun h2 => (Html.iaddStr h2 "Hello World!", false)))).1

/-- Sum of the deltas of a list of committed lines (the running indent
level reached after emitting them, when started at 0). -/
def deltaSum (ls : List HtmlLine) : Int :=
  (ls.map (fun l => l.indent.to_int)).sum

/-- Formalisation of the SPEC's words for splicing (not of the code): the
appended document's committed lines are adjoined intact after the
receiver's lines (the receiver's pending having been committed first), and
the appended document's pending is taken over verbatim. -/
def iaddSpliceSpec (h other : Html) : Html :=
  ⟨(h.newline false .nothing).inner_html ++ other.inner_html, other.buffer⟩

/-! ## Helper lemmas -/

theorem Indent.add_nothing (d : Indent) : Indent.add d Indent.nothing = d := by
  cases d <;> rfl

theorem string_length_zero (s : String) : s.length = 0 ↔ s = "" := by
  constructor
  · intro hz
    cases s with
    | mk data =>
      cases data with
      | nil => rfl
      | cons c cs => simp [String.length] at hz
  · intro he
    rw [he]
    rfl

theorem updateLastIndent_concat :
    ∀ (init : List HtmlLine) (l : HtmlLine) (d : Indent),
      updateLastIndent (init ++ [l]) d = init ++ [⟨l.line, Indent.add l.indent d⟩]
  | [], _, _ => rfl
  | [_], _, _ => rfl
  | x :: y :: t, l, d => by
    have ih := updateLastIndent_concat (y :: t) l d
    simp only [List.cons_append, List.append_eq, updateLastIndent] at ih ⊢
    rw [ih]

theorem updateLastIndent_nothing :
    ∀ ls : List HtmlLine, updateLastIndent ls Indent.nothing = ls
  | [] => rfl
  | [l] => by simp [updateLastIndent, Indent.add_nothing]
  | _ :: y :: t => by
    simp only [updateLastIndent]
    rw [updateLastIndent_nothing (y :: t)]

/-- The commit branch of `newline`: when forced, or the buffer is nonempty,
or there are no committed lines yet, a new line is appended. -/
theorem newline_commit (h : Html) (force : Bool) (ind : Indent)
    (hc : force = true ∨ h.buffer ≠ "" ∨ h.inner_html = []) :
    Html.newline h force ind = ⟨h.inner_html ++ [⟨h.buffer, ind⟩], ""⟩ := by
  rw [Html.newline, if_neg]
  rintro ⟨h1, h2, h3⟩
  rcases hc with hc | hc | hc
  · rw [hc] at h1
    exact absurd h1 (by decide)
  · exact hc ((string_length_zero h.buffer).mp h2)
  · rw [hc] at h3
    exact absurd h3 (by simp)

/-- The merge branch of `newline`: not forced, empty buffer, at least one
committed line. -/
theorem newline_merge (h : Html) (ind : Indent)
    (hb : h.buffer = "") (hl : h.inner_html ≠ []) :
    Html.newline h false ind = ⟨updateLastIndent h.inner_html ind, h.buffer⟩ := by
  rw [Html.newline, if_pos]
  exact ⟨rfl, by rw [hb]; rfl, List.length_pos.mpr hl⟩

theorem open_tag_ne_empty (name : String) : "<" ++ name ++ ">" ≠ "" := by
  intro he
  have hz : ("<" ++ name ++ ">").length = 0 := by rw [he]; rfl
  rw [String.length_append, String.length_append] at hz
  have h1 : ("<" : String).length = 1 := rfl
  have h2 : (">" : String).length = 1 := rfl
  omega

theorem close_tag_ne_empty (name : String) : "</" ++ name ++ ">" ≠ "" := by
  intro he
  have hz : ("</" ++ name ++ ">").length = 0 := by rw [he]; rfl
  rw [String.length_append, String.length_append] at hz
  have h1 : ("</" : String).length = 2 := rfl
  have h2 : (">" : String).length = 1 := rfl
  omega

theorem deltaSum_nil : deltaSum [] = 0 := rfl

theorem deltaSum_cons (l : HtmlLine) (ls : List HtmlLine) :
    deltaSum (l :: ls) = l.indent.to_int + deltaSum ls := by
  simp [deltaSum]

theorem deltaSum_append (xs ys : List HtmlLine) :
    deltaSum (xs ++ ys) = deltaSum xs + deltaSum ys := by
  simp [deltaSum]

/-! ## Claims -/

/-- C2 (counterexample): `Indent.from_int` does not signal an error on the
integer 2, which lies outside {-1, 0, 1}; it returns the ordinary value
`Indent.indent`, the same value it returns on 1, whereas the spec's
error-signalling conversion (`fromIntSpec`) rejects 2. -/
theorem from_int_out_of_range_no_error :
    Indent.from_int 2 = Indent.indent ∧
    Indent.from_int 2 = Indent.from_int 1 ∧
    fromIntSpec 2 = none := by
  refine ⟨by decide, by decide, by decide⟩

/-- C2 (amended): `Indent.from_int` is total and never signals an error; it
clamps by sign, mapping every positive integer to `indent`, every negative
integer to `dedent` and 0 to `nothing`; restricted to the images of the
three deltas it is the inverse of `Indent.to_int`. -/
theorem from_int_clamps_by_sign (n : Int) :
    (0 < n → Indent.from_int n = Indent.indent) ∧
    (n < 0 → Indent.from_int n = Indent.dedent) ∧
    (n = 0 → Indent.from_int n = Indent.nothing) ∧
    (∀ d : Indent, Indent.from_int d.to_int = d) := by
  refine ⟨?_, ?_, ?_, ?_⟩
  · intro hp
    rw [Indent.from_int, if_pos hp]
  · intro hn
    rw [Indent.from_int, if_neg (by omega), if_pos hn]
  · intro hz
    rw [Indent.from_int, if_neg (by omega), if_neg (by omega)]
  · intro d
    cases d <;> rfl

/-- Witness for C2's amended theorem at the concrete inputs 2 and -2. -/
theorem from_int_clamps_by_sign_witness :
    (0 < (2 : Int) ∧ Indent.from_int 2 = Indent.indent) ∧
    ((-2 : Int) < 0 ∧ Indent.from_int (-2) = Indent.dedent) :=
  ⟨⟨by decide, (from_int_clamps_by_sign 2).1 (by decide)⟩,
   ⟨by decide, (from_int_clamps_by_sign (-2)).2.1 (by decide)⟩⟩

/-- C3 (code evaluated at the failing input): rendering the empty document
(no committed lines, empty pending, final running level 0) with
`indent_size = 2` yields `"  \n"`: the final pending line is prefixed by
`indent_size` spaces rather than `indent_size * 0 = 0` spaces, because
`to_raw_html` prefixes the pending line with `' ' * indent_size`
unconditionally, omitting the `* indent` factor used for committed lines. -/
theorem to_raw_html_empty_doc_trailing_spaces :
    Html.to_raw_html ⟨[], ""⟩ 2 = Except.ok "  \n" ∧
    "  \n" ≠ "\n" := by
  exact ⟨rfl, by decide⟩

/-- C7: `__add__` deep-copies the receiver, applies the in-place append to
the copy and returns it; in the state-passing embedding the deep copy of a
document value is the value itself (a full structural copy), mutation never
reaches the original operands, and `a + b` coincides with the in-place
append applied to a fresh copy of `a`. -/
theorem add_nonmutating (a b : Html) :
    Html.hadd a b = Html.iaddHtml (Html.deepcopy a) b ∧
    Html.deepcopy a = a ∧
    Html.hadd a b = Html.iaddHtml a b :=
  ⟨rfl, rfl, rfl⟩

/-- C9 (counterexample): the document of the end-to-end example renders
(with `indent_size = 2`) to a string that starts with a blank line — the
entry commit of the outer `div` scope on the fresh empty document committed
an empty line first — and ends with a line of two spaces; it is not the
claimed five-line text followed by one final pending line, under either
reading of the final pending line's prefix. -/
theorem hello_world_render_ne_claimed :
    Html.to_raw_html helloDoc 2 =
      Except.ok "\n<div>\n  <p>\n    Hello World!\n  </p>\n</div>\n  \n" ∧
    "\n<div>\n  <p>\n    Hello World!\n  </p>\n</div>\n  \n" ≠
      "<div>\n  <p>\n    Hello World!\n  </p>\n</div>\n" ++ "\n" ∧
    "\n<div>\n  <p>\n    Hello World!\n  </p>\n</div>\n  \n" ≠
      "<div>\n  <p>\n    Hello World!\n  </p>\n</div>\n" ++ "  \n" := by
  refine ⟨rfl, by decide, by decide⟩

/-- C9 (amended): building, on a fresh empty document, a `div` scope
containing a `p` scope containing the text `"Hello World!"` and rendering
with `indent_size = 2` yields a leading blank line (from the initial commit
on the empty document), then the lines `<div>`, `<p>`, `Hello World!`,
`</p>`, `</div>` at 2-space multiples with the content one level deeper,
then one final pending line prefixed by `indent_size` spaces. -/
theorem hello_world_render :
    Html.to_raw_html helloDoc 2 =
      Except.ok "\n<div>\n  <p>\n    Hello World!\n  </p>\n</div>\n  \n" := rfl

/-- C10: a non-forced commit on a document with no committed lines and an
empty pending buffer still appends an empty-text committed line (the merge
needs an existing line), and entering the first tag scope on a fresh empty
document therefore commits a leading blank line of delta `nothing` before
the open-tag line. -/
theorem newline_on_empty_doc (d : Indent) (name : String) :
    Html.newline ⟨[], ""⟩ false d = ⟨[⟨"", d⟩], ""⟩ ∧
    (Html.tagEnter ⟨[], ""⟩ (get_open_and_close_tags name).1).inner_html =
      [⟨"", Indent.nothing⟩, ⟨"<" ++ name ++ ">", Indent.indent⟩] := by
  constructor
  · rfl
  · have h1 : Html.iaddStr (Html.newline ⟨[], ""⟩ false Indent.nothing)
        (get_open_and_close_tags name).1 =
        ⟨[⟨"", Indent.nothing⟩], "<" ++ name ++ ">"⟩ := rfl
    rw [Html.tagEnter, h1,
      newline_commit _ _ _ (Or.inr (Or.inl (open_tag_ne_empty name)))]
    rfl

/-- C5: a tag scope performs, on entry, a commit with delta `nothing`, the
write of the open-tag text, and a commit with delta `indent`, in that
order; on exit, a commit with delta `dedent`, the write of the close-tag
text, and a commit with delta `nothing`, in that order; the exit sequence
is applied exactly once to whatever state the body left behind, whether or
not the body raised (the raised flag is passed through unchanged and does
not influence the document state). -/
theorem tag_scope_sequence (h : Html) (open_tag close_tag : String)
    (body : Html → Html × Bool) :
    Html.tagEnter h open_tag =
      Html.newline (Html.iaddStr (Html.newline h false Indent.nothing) open_tag)
        false Indent.indent ∧
    (∀ s : Html, Html.tagExit s close_tag =
      Html.newline (Html.iaddStr (Html.newline s false Indent.dedent) close_tag)
        false Indent.nothing) ∧
    (Html.tagRun h open_tag close_tag body).1 =
      Html.tagExit (body (Html.tagEnter h open_tag)).1 close_tag ∧
    (Html.tagRun h open_tag close_tag body).2 = (body (Html.tagEnter h open_tag)).2 ∧
    (Html.tagRun h open_tag close_tag body).1 =
      (Html.tagRun h open_tag close_tag (fun s => ((body s).1, false))).1 :=
  ⟨rfl, fun _ => rfl, rfl, rfl, rfl⟩

/-- C1: `newline` with `force` false, an empty pending buffer and at least
one committed line creates no new line and only adds the given delta to
the last committed line's delta (via `Indent.add`), leaving the other
lines and the buffer unchanged; in every other case it appends the pending
text as a new committed line carrying the given delta and resets the
buffer to empty. -/
theorem newline_commit_protocol (h : Html) (force : Bool) (d : Indent) :
    (force = false → h.buffer = "" → h.inner_html ≠ [] →
      ∃ front last, h.inner_html = front ++ [last] ∧
        Html.newline h force d =
          ⟨front ++ [⟨last.line, Indent.add last.indent d⟩], h.buffer⟩) ∧
    ((force = true ∨ h.buffer ≠ "" ∨ h.inner_html = []) →
      Html.newline h force d = ⟨h.inner_html ++ [⟨h.buffer, d⟩], ""⟩) := by
  constructor
  · intro hf hb hl
    rcases List.eq_nil_or_concat h.inner_html with hnil | ⟨front, last, heq⟩
    · exact absurd hnil hl
    · refine ⟨front, last, by rw [heq, List.concat_eq_append], ?_⟩
      subst hf
      rw [newline_merge h d hb hl, heq, List.concat_eq_append, updateLastIndent_concat]
  · intro hc
    exact newline_commit h force d hc

/-- Witness for C1 at concrete inputs exercising both branches. -/
theorem newline_commit_protocol_witness :
    (∃ front last, ([⟨"a", Indent.nothing⟩] : List HtmlLine) = front ++ [last] ∧
      Html.newline ⟨[⟨"a", Indent.nothing⟩], ""⟩ false Indent.indent =
        ⟨front ++ [⟨last.line, Indent.add last.indent Indent.indent⟩], ""⟩) ∧
    Html.newline ⟨[], "t"⟩ false Indent.nothing = ⟨[⟨"t", Indent.nothing⟩], ""⟩ :=
  ⟨(newline_commit_protocol ⟨[⟨"a", Indent.nothing⟩], ""⟩ false Indent.indent).1
      rfl rfl (by decide),
   (newline_commit_protocol ⟨[], "t"⟩ false Indent.nothing).2
      (Or.inr (Or.inl (by decide)))⟩

/-- C6 (counterexample): appending a document whose first committed line
has empty text does not splice that line: the per-line commit goes through
the merge branch of `newline`, which folds the empty line's delta into the
receiver's last line instead of appending it, so the appended document's
structure is not preserved intact. -/
theorem iadd_html_not_splice :
    Html.iaddHtml ⟨[⟨"x", Indent.nothing⟩], ""⟩
        ⟨[⟨"", Indent.indent⟩, ⟨"y", Indent.nothing⟩], ""⟩ =
      ⟨[⟨"x", Indent.indent⟩, ⟨"y", Indent.nothing⟩], ""⟩ ∧
    iaddSpliceSpec ⟨[⟨"x", Indent.nothing⟩], ""⟩
        ⟨[⟨"", Indent.indent⟩, ⟨"y", Indent.nothing⟩], ""⟩ =
      ⟨[⟨"x", Indent.nothing⟩, ⟨"", Indent.indent⟩, ⟨"y", Indent.nothing⟩], ""⟩ ∧
    Html.iaddHtml ⟨[⟨"x", Indent.nothing⟩], ""⟩
        ⟨[⟨"", Indent.indent⟩, ⟨"y", Indent.nothing⟩], ""⟩ ≠
      iaddSpliceSpec ⟨[⟨"x", Indent.nothing⟩], ""⟩
        ⟨[⟨"", Indent.indent⟩, ⟨"y", Indent.nothing⟩], ""⟩ := by
  refine ⟨by decide, by decide, by decide⟩

/-- The per-line loop of `__iadd__` appends each line of the argument when
its text is nonempty (the commit always takes the append branch). -/
theorem iadd_fold_inner :
    ∀ (ls : List HtmlLine) (acc : Html), (∀ l ∈ ls, l.line ≠ "") →
      (List.foldl (fun acc l => Html.newline { acc with buffer := l.line } false l.indent)
        acc ls).inner_html = acc.inner_html ++ ls
  | [], acc, _ => by simp
  | l :: ls, acc, hne => by
    rw [List.foldl_cons]
    have hstep : Html.newline { acc with buffer := l.line } false l.indent =
        ⟨acc.inner_html ++ [l], ""⟩ := by
      rw [newline_commit _ _ _ (Or.inr (Or.inl (hne l (List.mem_cons_self l ls))))]
    rw [hstep,
      iadd_fold_inner ls ⟨acc.inner_html ++ [l], ""⟩
        (fun x hx => hne x (List.mem_cons_of_mem l hx))]
    simp

/-- C6 (amended): appending `other` to `self` first commits `self`'s
pending via the commit protocol, then for each committed line of `other`
in order sets the pending to that line's text and commits it via the same
protocol, and finally sets the pending to `other`'s pending verbatim; when
every committed line of `other` has nonempty text each per-line commit
appends, so `other`'s committed-line sequence is spliced intact (empty
lines of `other` merge into the preceding line's delta instead). -/
theorem iadd_html_splice_nonempty (a b : Html)
    (hb : ∀ l ∈ b.inner_html, l.line ≠ "") :
    Html.iaddHtml a b =
      ⟨(Html.newline a false Indent.nothing).inner_html ++ b.inner_html, b.buffer⟩ := by
  have hinner := iadd_fold_inner b.inner_html (Html.newline a false Indent.nothing) hb
  calc Html.iaddHtml a b
      = ⟨(List.foldl (fun acc l => Html.newline { acc with buffer := l.line } false l.indent)
          (Html.newline a false Indent.nothing) b.inner_html).inner_html, b.buffer⟩ := rfl
    _ = ⟨(Html.newline a false Indent.nothing).inner_html ++ b.inner_html, b.buffer⟩ := by
        rw [hinner]

/-- Witness for C6's amended theorem at concrete documents. -/
theorem iadd_html_splice_nonempty_witness :
    (∀ l ∈ ([⟨"u", Indent.indent⟩] : List HtmlLine), l.line ≠ "") ∧
    Html.iaddHtml ⟨[⟨"x", Indent.nothing⟩], ""⟩ ⟨[⟨"u", Indent.indent⟩], "p"⟩ =
      ⟨(Html.newline ⟨[⟨"x", Indent.nothing⟩], ""⟩ false Indent.nothing).inner_html ++
        [⟨"u", Indent.indent⟩], "p"⟩ :=
  ⟨by decide,
   iadd_html_splice_nonempty ⟨[⟨"x", Indent.nothing⟩], ""⟩
     ⟨[⟨"u", Indent.indent⟩], "p"⟩ (by decide)⟩

/-- C8 (counterexample): on the empty document, opening a `div` scope and
immediately closing it adds three committed lines, not two: the entry
commit appends a leading blank line because the merge needs an existing
committed line. -/
theorem tag_scope_empty_doc_three_lines :
    (Html.tagNoBody ⟨[], ""⟩ "div").inner_html =
      [⟨"", Indent.nothing⟩, ⟨"<div>", Indent.nothing⟩, ⟨"</div>", Indent.nothing⟩] ∧
    (Html.tagNoBody ⟨[], ""⟩ "div").inner_html.length ≠
      (⟨[], ""⟩ : Html).inner_html.length + 2 := by
  refine ⟨by decide, by decide⟩

/-- C8 (amended): on a document with an empty pending buffer and at least
one committed line, opening a tag scope and immediately closing it with no
writes inside adds exactly the open-tag line and the close-tag line, both
with delta `nothing` (the scope's indent and dedent cancelled on the
open-tag line), so the pair's deltas sum to zero and rendering places both
lines at the same indent level. -/
theorem tag_scope_two_lines (h : Html) (name : String)
    (hb : h.buffer = "") (hl : h.inner_html ≠ []) :
    Html.tagNoBody h name =
      ⟨h.inner_html ++ [⟨"<" ++ name ++ ">", Indent.nothing⟩,
        ⟨"</" ++ name ++ ">", Indent.nothing⟩], ""⟩ ∧
    deltaSum ((Html.tagNoBody h name).inner_html.take (h.inner_html.length + 1)) =
      deltaSum ((Html.tagNoBody h name).inner_html.take h.inner_html.length) ∧
    deltaSum (Html.tagNoBody h name).inner_html = deltaSum h.inner_html := by
  have henter : Html.tagEnter h ("<" ++ name ++ ">") =
      ⟨h.inner_html ++ [⟨"<" ++ name ++ ">", Indent.indent⟩], ""⟩ := by
    rw [Html.tagEnter, newline_merge h Indent.nothing hb hl, updateLastIndent_nothing]
    have h1 : Html.iaddStr ⟨h.inner_html, h.buffer⟩ ("<" ++ name ++ ">") =
        ⟨h.inner_html, "<" ++ name ++ ">"⟩ := by
      rw [Html.iaddStr, hb]
      rfl
    rw [h1, newline_commit _ _ _ (Or.inr (Or.inl (open_tag_ne_empty name)))]
  have hexit : Html.tagExit ⟨h.inner_html ++ [⟨"<" ++ name ++ ">", Indent.indent⟩], ""⟩
      ("</" ++ name ++ ">") =
      ⟨h.inner_html ++ [⟨"<" ++ name ++ ">", Indent.nothing⟩,
        ⟨"</" ++ name ++ ">", Indent.nothing⟩], ""⟩ := by
    have s1 : Html.newline ⟨h.inner_html ++ [⟨"<" ++ name ++ ">", Indent.indent⟩], ""⟩
        false Indent.dedent =
        ⟨h.inner_html ++ [⟨"<" ++ name ++ ">", Indent.nothing⟩], ""⟩ := by
      have hm := newline_merge
        (⟨h.inner_html ++ [⟨"<" ++ name ++ ">", Indent.indent⟩], ""⟩ : Html)
        Indent.dedent rfl (by simp)
      rw [hm]
      show (⟨updateLastIndent (h.inner_html ++ [⟨"<" ++ name ++ ">", Indent.indent⟩])
        Indent.dedent, ""⟩ : Html) = _
      rw [updateLastIndent_concat]
      rfl
    have s2 : Html.iaddStr ⟨h.inner_html ++ [⟨"<" ++ name ++ ">", Indent.nothing⟩], ""⟩
        ("</" ++ name ++ ">") =
        ⟨h.inner_html ++ [⟨"<" ++ name ++ ">", Indent.nothing⟩],
          "</" ++ name ++ ">"⟩ := rfl
    have hc2 := newline_commit
      (⟨h.inner_html ++ [⟨"<" ++ name ++ ">", Indent.nothing⟩], "</" ++ name ++ ">"⟩ : Html)
      false Indent.nothing (Or.inr (Or.inl (close_tag_ne_empty name)))
    rw [Html.tagExit, s1, s2, hc2]
    simp
  have hmain : Html.tagNoBody h name =
      ⟨h.inner_html ++ [⟨"<" ++ name ++ ">", Indent.nothing⟩,
        ⟨"</" ++ name ++ ">", Indent.nothing⟩], ""⟩ := by
    have hstep : Html.tagNoBody h name =
        Html.tagExit (Html.tagEnter h ("<" ++ name ++ ">")) ("</" ++ name ++ ">") := by
      simp only [Html.tagNoBody, Html.tagRun, get_open_and_close_tags]
    rw [hstep, henter, hexit]
  refine ⟨hmain, ?_, ?_⟩
  · rw [hmain]
    have e1 : List.take h.inner_html.length
        (h.inner_html ++ ([⟨"<" ++ name ++ ">", Indent.nothing⟩,
          ⟨"</" ++ name ++ ">", Indent.nothing⟩] : List HtmlLine)) = h.inner_html := by
      simp
    have e2 : List.take (h.inner_html.length + 1)
        (h.inner_html ++ ([⟨"<" ++ name ++ ">", Indent.nothing⟩,
          ⟨"</" ++ name ++ ">", Indent.nothing⟩] : List HtmlLine)) =
        h.inner_html ++ ([⟨"<" ++ name ++ ">", Indent.nothing⟩] : List HtmlLine) := by
      rw [List.take_append_eq_append_take]
      rw [List.take_of_length_le (by omega)]
      congr 1
      rw [show h.inner_html.length + 1 - h.inner_html.length = 1 from by omega]
      rfl
    rw [e1, e2, deltaSum_append]
    simp [deltaSum_cons, deltaSum_nil, Indent.to_int]
  · rw [hmain, deltaSum_append]
    simp [deltaSum_cons, deltaSum_nil, Indent.to_int]

/-- Witness for C8's amended theorem at a concrete one-line document. -/
theorem tag_scope_two_lines_witness :
    ((⟨[⟨"x", Indent.nothing⟩], ""⟩ : Html).buffer = "" ∧
      (⟨[⟨"x", Indent.nothing⟩], ""⟩ : Html).inner_html ≠ []) ∧
    Html.tagNoBody ⟨[⟨"x", Indent.nothing⟩], ""⟩ "div" =
      ⟨[⟨"x", Indent.nothing⟩, ⟨"<div>", Indent.nothing⟩,
        ⟨"</div>", Indent.nothing⟩], ""⟩ :=
  ⟨⟨rfl, by decide⟩,
   (tag_scope_two_lines ⟨[⟨"x", Indent.nothing⟩], ""⟩ "div" rfl (by decide)).1⟩

/-- The committed-lines loop of the renderer raises exactly when the
running level, started from `ind`, is negative after some nonempty prefix
of the remaining lines. -/
theorem toRawHtmlGo_error_iff (n : Nat) :
    ∀ (ls : List HtmlLine) (ind : Int) (acc : String),
      (toRawHtmlGo n ls ind acc = Except.error WriteOutError.invalidIndentation ↔
        ∃ k, 1 ≤ k ∧ k ≤ ls.length ∧ ind + deltaSum (ls.take k) < 0)
  | [], ind, acc => by
    simp only [toRawHtmlGo]
    constructor
    · intro hcon
      exact absurd hcon (by simp)
    · rintro ⟨k, hk1, hk2, _⟩
      simp only [List.length_nil] at hk2
      omega
  | l :: ls, ind, acc => by
    simp only [toRawHtmlGo]
    by_cases hneg : ind + l.indent.to_int < 0
    · rw [if_pos hneg]
      constructor
      · intro _
        refine ⟨1, le_refl 1, by simp, ?_⟩
        rw [List.take_succ_cons, List.take_zero, deltaSum_cons, deltaSum_nil]
        omega
      · intro _
        rfl
    · rw [if_neg hneg]
      rw [toRawHtmlGo_error_iff n ls (ind + l.indent.to_int)
        (acc ++ spaces (n * ind.toNat) ++ l.line ++ "\n")]
      constructor
      · rintro ⟨k, hk1, hk2, hk3⟩
        refine ⟨k + 1, by omega, ?_, ?_⟩
        · simp only [List.length_cons]
          omega
        · rw [List.take_succ_cons, deltaSum_cons]
          omega
      · rintro ⟨k, hk1, hk2, hk3⟩
        cases k with
        | zero => omega
        | succ j =>
          rw [List.take_succ_cons, deltaSum_cons] at hk3
          cases Nat.eq_zero_or_pos j with
          | inl hj0 =>
            exfalso
            rw [hj0, List.take_zero, deltaSum_nil] at hk3
            omega
          | inr hj1 =>
            refine ⟨j, hj1, ?_, by omega⟩
            simp only [List.length_cons] at hk2
            omega

/-- C4: rendering raises the `WriteOutError` exactly when the running
indent level — starting at 0 and adding each committed line's delta in
order — goes negative at some prefix of the committed lines; when it never
does, rendering returns a string normally (the level is never clamped). -/
theorem to_raw_html_error_iff_negative_prefix (h : Html) (n : Nat) :
    (Html.to_raw_html h n = Except.error WriteOutError.invalidIndentation ↔
      ∃ k, k ≤ h.inner_html.length ∧ deltaSum (h.inner_html.take k) < 0) ∧
    ((∃ s, Html.to_raw_html h n = Except.ok s) ↔
      ¬ ∃ k, k ≤ h.inner_html.length ∧ deltaSum (h.inner_html.take k) < 0) := by
  have key := toRawHtmlGo_error_iff n h.inner_html 0 ""
  have bridge : (∃ k, 1 ≤ k ∧ k ≤ h.inner_html.length ∧
      (0 : Int) + deltaSum (h.inner_html.take k) < 0) ↔
      (∃ k, k ≤ h.inner_html.length ∧ deltaSum (h.inner_html.take k) < 0) := by
    constructor
    · rintro ⟨k, _, hk2, hk3⟩
      exact ⟨k, hk2, by omega⟩
    · rintro ⟨k, hk2, hk3⟩
      refine ⟨k, ?_, hk2, by omega⟩
      cases Nat.eq_zero_or_pos k with
      | inl hk0 =>
        exfalso
        rw [hk0, List.take_zero, deltaSum_nil] at hk3
        omega
      | inr hk1 => exact hk1
  cases hgo : toRawHtmlGo n h.inner_html 0 "" with
  | ok s =>
    rw [hgo] at key
    constructor
    · constructor
      · intro hcon
        rw [Html.to_raw_html, hgo] at hcon
        exact absurd hcon (by simp)
      · intro hex
        exact absurd (key.mpr (bridge.mpr hex)) (by simp)
    · constructor
      · intro _ hex
        exact absurd (key.mpr (bridge.mpr hex)) (by simp)
      · intro _
        refine ⟨s ++ spaces n ++ h.buffer ++ "\n", ?_⟩
        rw [Html.to_raw_html, hgo]
  | error e =>
    cases e
    rw [hgo] at key
    constructor
    · constructor
      · intro _
        exact bridge.mp (key.mp rfl)
      · intro _
        rw [Html.to_raw_html, hgo]
    · constructor
      · rintro ⟨s, hs⟩
        rw [Html.to_raw_html, hgo] at hs
        exact absurd hs (by simp)
      · intro hnex
        exact absurd (bridge.mp (key.mp rfl)) hnex

end HtmlWriter
